import Mathlib

/-!
Verification of the narou-dl retrieval-and-assembly pipeline (narou_dl.py).

Strings are modelled as `List Char` (Python `str` is a sequence of code
points).  The regular expressions of the source are embedded as explicit
character-level matchers; since every character class involved (digits,
ASCII letters, literal characters) is pairwise disjoint from its neighbour
in each pattern, greedy maximal-munch matching coincides with the
backtracking semantics of Python's `re`, and the matchers below implement
exactly that (with an explicit two-then-one letter backtracking step where
the following context can reject the two-letter take).  Case folding is
modelled on ASCII, which covers every string the patterns accept.
Network I/O is abstracted by an oracle mapping a URL to either a parsed
page or a fetch error, and wall-clock sleeps are recorded as rational
durations rather than performed.
-/

deriving instance DecidableEq for Except

/-- Decimal digit test, the `\d` class of the source patterns (ASCII model). -/
def isDig (c : Char) : Bool := '0' ≤ c && c ≤ '9'

/-- Lowercase ASCII letter test. -/
def isLow (c : Char) : Bool := 'a' ≤ c && c ≤ 'z'

/-- The `[a-z]` class under `re.IGNORECASE`: any ASCII letter. -/
def isAl (c : Char) : Bool := isLow c || ('A' ≤ c && c ≤ 'Z')

/-- ASCII lowercasing, the model of Python `str.lower` on the characters the
identifier patterns accept.  Written as an explicit table so that facts about
it reduce by case analysis. -/
def lowerC (c : Char) : Char :=
  match c with
  | 'A' => 'a' | 'B' => 'b' | 'C' => 'c' | 'D' => 'd' | 'E' => 'e' | 'F' => 'f'
  | 'G' => 'g' | 'H' => 'h' | 'I' => 'i' | 'J' => 'j' | 'K' => 'k' | 'L' => 'l'
  | 'M' => 'm' | 'N' => 'n' | 'O' => 'o' | 'P' => 'p' | 'Q' => 'q' | 'R' => 'r'
  | 'S' => 's' | 'T' => 't' | 'U' => 'u' | 'V' => 'v' | 'W' => 'w' | 'X' => 'x'
  | 'Y' => 'y' | 'Z' => 'z'
  | c => c

/-- Whitespace stripped by Python `str.strip()` (ASCII model). -/
def isPySpace (c : Char) : Bool :=
  c == ' ' || c == '\t' || c == '\n' || c == '\r' || c == '\x0b' || c == '\x0c'

/-- C0 control characters and space, stripped from URL ends by `urllib.parse`. -/
def isC0OrSpace (c : Char) : Bool := c.toNat ≤ 32

/-- Drop characters satisfying `p` from both ends of a list. -/
def stripEnds (p : Char → Bool) (s : List Char) : List Char :=
  ((s.dropWhile p).reverse.dropWhile p).reverse

/-- Model of Python `str.strip()`. -/
def pyStrip (s : List Char) : List Char := stripEnds isPySpace s

/-- The sanitisation `urllib.parse` applies before splitting a URL:
strip C0-control-or-space from both ends, remove tab, CR and LF anywhere. -/
def sanitizeUrl (s : List Char) : List Char :=
  (stripEnds isC0OrSpace s).filter (fun c => !(c == '\t' || c == '\r' || c == '\n'))

/-- Characters allowed in a URL scheme after the first letter. -/
def isSchemeChar (c : Char) : Bool :=
  isAl c || isDig c || c == '+' || c == '-' || c == '.'

/-- Position of the colon ending a valid URL scheme, if the string starts with
one (CPython `urlsplit`: a colon at a positive index, a leading ASCII letter,
and only scheme characters before the colon). -/
def schemeEnd (s : List Char) : Option Nat :=
  match s.findIdx? (· == ':') with
  | none => none
  | some i =>
    if 0 < i && (match s.head? with | some c => isAl c | none => false)
        && (s.take i).all isSchemeChar
    then some i else none

/-- Remove a valid scheme (and its colon) from the front of a URL string. -/
def dropScheme (s : List Char) : List Char :=
  match schemeEnd s with
  | none => s
  | some i => s.drop (i + 1)

/-- Characters terminating the authority component. -/
def isNetlocEnd (c : Char) : Bool := c == '/' || c == '?' || c == '#'

/-- Split off a leading `//authority` part, returning it (with its slashes)
and the remainder, which starts at the first `/`, `?` or `#` after it. -/
def splitNetloc (s : List Char) : List Char × List Char :=
  match s with
  | '/' :: '/' :: r =>
    (['/', '/'] ++ r.takeWhile (fun c => !isNetlocEnd c),
     r.dropWhile (fun c => !isNetlocEnd c))
  | _ => ([], s)

/-- The `path` component produced by CPython `urlsplit`: sanitise, drop the
scheme, drop the authority, cut at the first `#`, then at the first `?`. -/
def urlsplitPath (u : List Char) : List Char :=
  let s := sanitizeUrl u
  let r := (splitNetloc (dropScheme s)).2
  (r.takeWhile (· ≠ '#')).takeWhile (· ≠ '?')

/-- Index of the last occurrence of `c` in `l`. -/
def lastIdxOf (c : Char) (l : List Char) : Option Nat :=
  match l.reverse.findIdx? (· == c) with
  | none => none
  | some k => some (l.length - 1 - k)

/-- Index of the first occurrence of `c` in `l` at position `j` or later. -/
def findIdxFrom (c : Char) (j : Nat) (l : List Char) : Option Nat :=
  match (l.drop j).findIdx? (· == c) with
  | none => none
  | some k => some (j + k)

/-- CPython `urlparse` additionally splits `;params` off the last path
segment; this returns the path part of that split. -/
def splitParamsPath (p : List Char) : List Char :=
  if p.contains ';' then
    if p.contains '/' then
      match lastIdxOf '/' p with
      | none => p
      | some j =>
        match findIdxFrom ';' j p with
        | none => p
        | some i => p.take i
    else p.takeWhile (· ≠ ';')
  else p

/-- The `.path` attribute of CPython `urlparse` (ASCII model, CPython 3.11
splitting rules). -/
def urlparsePath (u : List Char) : List Char := splitParamsPath (urlsplitPath u)

/-- The `scheme://authority` part of a URL, as CPython `urljoin` reproduces it
(scheme lowercased).  Used to model `urljoin(base, path)` for a root-relative
`path`, the only shape of reference this program joins. -/
def originOf (u : List Char) : List Char :=
  let s := sanitizeUrl u
  let sch := match schemeEnd s with
    | none => ([] : List Char)
    | some i => (s.take i).map lowerC ++ [':']
  sch ++ (splitNetloc (dropScheme s)).1

/-- Model of `urljoin(base, path)` for a root-relative, dot-free `path`
(every path joined by this program matched `EP_PATH_RE`, so it begins with
`/` and contains only the identifier, digits and slashes): the result is the
base's origin followed by the path. -/
def urljoinRoot (base path : List Char) : List Char := originOf base ++ path

/-- Model of `re.fullmatch(r"n\d{4,}[a-z]{1,2}", raw, re.IGNORECASE)`:
`n` or `N`, at least four digits, then one or two letters, consuming the
whole string. -/
def bareMatch (s : List Char) : Bool :=
  match s with
  | [] => false
  | c :: rest =>
    (c == 'n' || c == 'N') && decide (4 ≤ (rest.takeWhile isDig).length)
      && (rest.dropWhile isDig).all isAl
      && ((rest.dropWhile isDig).length == 1 || (rest.dropWhile isDig).length == 2)

/-- After the letter block of `NCODE_RE`, the pattern requires `/` or the end
of the string. -/
def endsOk (t : List Char) : Bool := t.isEmpty || t.head? == some '/'

/-- Try to match `NCODE_RE` = `/(n\d{4,}[a-z]{1,2})(?:/|$)` (IGNORECASE) at
the head of `s`, returning the captured group.  The two-letter take is tried
before the one-letter take, as the greedy `[a-z]{1,2}` does. -/
def ncodeMatchAt (s : List Char) : Option (List Char) :=
  match s with
  | '/' :: c :: rest =>
    if c == 'n' || c == 'N' then
      let ds := rest.takeWhile isDig
      let r2 := rest.dropWhile isDig
      if 4 ≤ ds.length then
        match r2 with
        | a :: b :: t =>
          if isAl a && isAl b && endsOk t then some (c :: ds ++ [a, b])
          else if isAl a && endsOk (b :: t) then some (c :: ds ++ [a])
          else none
        | [a] => if isAl a then some (c :: ds ++ [a]) else none
        | [] => none
      else none
    else none
  | _ => none

/-- Leftmost match of `NCODE_RE` anywhere in the string (the semantics of
`re.search`), returning the captured identifier group. -/
def ncodeSearch : List Char → Option (List Char)
  | [] => none
  | c :: t =>
    match ncodeMatchAt (c :: t) with
    | some g => some g
    | none => ncodeSearch t

/-- The tail `/(\d+)/?$`-shaped remainder check of `EP_PATH_RE`: a slash, a
nonempty digit run, then nothing or a single final slash.  Returns the digit
group. -/
def epSlashNumEnd (l : List Char) : Option (List Char) :=
  match l with
  | '/' :: rest =>
    let ds := rest.takeWhile isDig
    let r := rest.dropWhile isDig
    if ds.isEmpty then none
    else if r.isEmpty || r == ['/'] then some ds else none
  | _ => none

/-- Model of `EP_PATH_RE.match` = `^/(n\d{4,}[a-z]{1,2})/(\d+)/?$`
(IGNORECASE) on a path, returning the identifier group and the episode-number
group.  The greedy letter block first takes two letters and falls back to one
when the rest of the pattern rejects the remainder. -/
def epPathMatch (p : List Char) : Option (List Char × List Char) :=
  match p with
  | '/' :: c :: rest =>
    if c == 'n' || c == 'N' then
      let ds := rest.takeWhile isDig
      let r2 := rest.dropWhile isDig
      if 4 ≤ ds.length then
        match r2 with
        | a :: b :: t =>
          if isAl a && isAl b then
            match epSlashNumEnd t with
            | some ds2 => some (c :: ds ++ [a, b], ds2)
            | none =>
              match epSlashNumEnd (b :: t) with
              | some ds2 => some (c :: ds ++ [a], ds2)
              | none => none
          else if isAl a then
            match epSlashNumEnd (b :: t) with
            | some ds2 => some (c :: ds ++ [a], ds2)
            | none => none
          else none
        | _ => none
      else none
    else none
  | _ => none

/-- Case-insensitive literal match of `p` against the front of the second
list, returning the remainder; the semantics `re.escape(ncode)` gives the
identifier inside the episode-number pattern. -/
def stripCI : List Char → List Char → Option (List Char)
  | [], s => some s
  | _ :: _, [] => none
  | p :: ps, c :: cs => if lowerC p == lowerC c then stripCI ps cs else none

/-- Try to match `/{ncode}/(\d+)/` (IGNORECASE) at the head of `s`,
returning the digit group. -/
def epNoMatchAt (nc : List Char) (s : List Char) : Option (List Char) :=
  match s with
  | '/' :: r =>
    match stripCI nc r with
    | some ('/' :: r2) =>
      let ds := r2.takeWhile isDig
      if ds.isEmpty then none
      else if (r2.dropWhile isDig).head? == some '/' then some ds else none
    | _ => none
  | _ => none

/-- Leftmost occurrence of the episode-number pattern for identifier `nc`
anywhere in `u` (the `re.search` on the escaped identifier in the sort key
and the range filter). -/
def epNoSearch (nc : List Char) : List Char → Option (List Char)
  | [] => none
  | c :: t =>
    match epNoMatchAt nc (c :: t) with
    | some ds => some ds
    | none => epNoSearch nc t

/-- Value of a decimal digit character. -/
def digVal (c : Char) : Nat :=
  match c with
  | '0' => 0 | '1' => 1 | '2' => 2 | '3' => 3 | '4' => 4
  | '5' => 5 | '6' => 6 | '7' => 7 | '8' => 8 | '9' => 9
  | _ => 0

/-- Model of Python `int` on a digit string. -/
def digitsToNat (ds : List Char) : Nat := ds.foldl (fun a c => 10 * a + digVal c) 0

/-- The sort key `ep_no` of `parse_episode_urls`: the episode number parsed
from the URL, or the sentinel `10 ** 18` when the pattern does not occur. -/
def epNoKey (nc u : List Char) : Nat :=
  match epNoSearch nc u with
  | some ds => digitsToNat ds
  | none => 10 ^ 18

/-- Model of `re.search(r"/(\d+)/?$", url)` in `extract_episode`: the trailing
digit run of the path, which must be preceded by a slash and followed by at
most one final slash. -/
def trailNum (url : List Char) : Option Nat :=
  let r := url.reverse
  let r1 := if r.head? == some '/' then r.tail else r
  let ds := r1.takeWhile isDig
  if ds.isEmpty then none
  else if (r1.dropWhile isDig).head? == some '/' then some (digitsToNat ds.reverse)
  else none

/-- Substring test, Python's `"://" in href`. -/
def hasSub (pat : List Char) : List Char → Bool
  | [] => pat.isEmpty
  | c :: t => pat.isPrefixOf (c :: t) || hasSub pat t

/-- The effective search string of `extract_ncode`: the URL path, or the raw
string itself when that path is empty (`urlparse(raw).path or raw`). -/
def effectivePath (raw : List Char) : List Char :=
  let p := urlparsePath raw
  if p.isEmpty then raw else p

/-- Model of `extract_ncode`: strip, accept a bare code lowercased, otherwise
search the URL path (falling back to the whole string when the path is empty)
for the identifier pattern; `ValueError` is the `error` case. -/
def extract_ncode (s : List Char) : Except Unit (List Char) :=
  let raw := pyStrip s
  if bareMatch raw then Except.ok (raw.map lowerC)
  else
    match ncodeSearch (effectivePath raw ++ ['/']) with
    | some g => Except.ok (g.map lowerC)
    | none => Except.error ()

/-- The fixed base URL of the index pages. -/
def baseUrl : List Char := "https://ncode.syosetu.com/".data

/-- Model of `normalize_index_url`. -/
def normalize_index_url (nc : List Char) : List Char := baseUrl ++ nc ++ "/".data

/-- Model of the `HttpClient` constructor state: the delay is clamped to at
least `0.0` and the retry count to at least `1`; the session's user agent
header is recorded as a field. -/
structure HttpClient where
  delay : ℚ
  timeout : Int
  retries : Int
  userAgent : List Char
deriving DecidableEq

/-- Model of `HttpClient.__init__`. -/
def HttpClient.init (delay : ℚ) (timeout : Int) (retries : Int)
    (userAgent : List Char) : HttpClient :=
  ⟨max 0 delay, timeout, max 1 retries, userAgent⟩

/-- Result of a `get` call: a response, a raised exception, or a violation of
the `assert last_error is not None` statement. -/
inductive GetOutcome (ε ρ : Type) where
  | success : ρ → GetOutcome ε ρ
  | raised : ε → GetOutcome ε ρ
  | assertViolation : GetOutcome ε ρ
deriving DecidableEq

/-- Observable trace of a `get` call: its outcome, the number of request
attempts issued, and the backoff sleeps performed (in seconds; the throttle
sleep depends on the wall clock and is not recorded). -/
structure GetTrace (ε ρ : Type) where
  outcome : GetOutcome ε ρ
  attempts : Nat
  sleeps : List ℚ
deriving DecidableEq

/-- The backoff duration slept after failed attempt `attempt`:
`min(5.0, 0.5 * (2 ** (attempt - 1)))`, in exact rational arithmetic (the
Python values are dyadic rationals below the cap, hence exact floats). -/
def backoff (attempt : Nat) : ℚ := min 5 ((1 / 2) * 2 ^ (attempt - 1))

/-- The retry loop of `HttpClient.get` over the remaining attempt numbers.
`transport` abstracts `self.session.get(url) + raise_for_status`: for each
attempt number it yields a response or a `RequestException`.  On failure at
`attempt == retries` the loop breaks and the recorded last error is raised;
otherwise a backoff sleep is recorded and the loop continues. -/
def getLoop {ε ρ : Type} (transport : Nat → Except ε ρ) (retries : Nat) :
    List Nat → Option ε → GetTrace ε ρ
  | [], none => ⟨GetOutcome.assertViolation, 0, []⟩
  | [], some e => ⟨GetOutcome.raised e, 0, []⟩
  | a :: rest, _ =>
    match transport a with
    | Except.ok r => ⟨GetOutcome.success r, 1, []⟩
    | Except.error e =>
      if a = retries then ⟨GetOutcome.raised e, 1, []⟩
      else
        let t := getLoop transport retries rest (some e)
        ⟨t.outcome, t.attempts + 1, backoff a :: t.sleeps⟩

/-- Model of `HttpClient.get`: run the loop over `range(1, retries + 1)` with
no last error recorded yet. -/
def HttpClient.get {ε ρ : Type} (c : HttpClient) (transport : Nat → Except ε ρ) :
    GetTrace ε ρ :=
  getLoop transport c.retries.toNat (List.range' 1 c.retries.toNat) none

/-- Per-anchor processing of `parse_episode_urls`: strip the href, take its
URL path when it contains `://`, match `EP_PATH_RE`, require the captured
identifier to equal `ncode` case-insensitively, and resolve the path against
the base URL. -/
def procHref (nc base : List Char) (h : List Char) : Option (List Char) :=
  let href := pyStrip h
  let path := if hasSub "://".data href then urlparsePath href else href
  match epPathMatch path with
  | none => none
  | some (g, _) =>
    if g.map lowerC = nc.map lowerC then some (urljoinRoot base path) else none

/-- The anchor scan of `parse_episode_urls`: keep each resolved URL not yet
in `seen`, in first-occurrence order. -/
def collectUrls (nc base : List Char) : List (List Char) → List (List Char) →
    List (List Char)
  | [], _ => []
  | h :: t, seen =>
    match procHref nc base h with
    | none => collectUrls nc base t seen
    | some abs =>
      if abs ∈ seen then collectUrls nc base t seen
      else abs :: collectUrls nc base t (abs :: seen)

/-- Model of `parse_episode_urls`: the deduplicated matching URLs, stably
sorted ascending by `epNoKey` (Python `list.sort` is stable; a stable sort by
a key is unique, so stable insertion sort is the same function). -/
def parse_episode_urls (hrefs : List (List Char)) (nc base : List Char) :
    List (List Char) :=
  List.insertionSort (fun a b => epNoKey nc a ≤ epNoKey nc b)
    (collectUrls nc base hrefs [])

/-- A parsed page, the queryable-tree capability the program consumes: each
field is the result of the corresponding query.  An element that is absent,
or present but empty (a childless tag is falsy in the tree library, so
`if node:` skips it), is `none`; otherwise the captured text or inner markup. -/
structure Page where
  novelTitle : Option (List Char) := none
  writerName : Option (List Char) := none
  anchors : List (List Char) := []
  subtitle : Option (List Char) := none
  preface : Option (List Char) := none
  honbun : Option (List Char) := none
  afterword : Option (List Char) := none
deriving DecidableEq

/-- Model of the `Episode` dataclass.  Every index this program constructs is
the value of a digit run (or the default `1`), hence a natural number. -/
structure Episode where
  index : Nat
  title : List Char
  url : List Char
  html_body : List Char
deriving DecidableEq

/-- The content-zone collection of `extract_episode`, in fixed order:
optional preface, main body, optional afterword. -/
def partsOf (page : Page) (includePreface includeAfterword : Bool) :
    List (List Char) :=
  (if includePreface then page.preface.toList else []) ++
    page.honbun.toList ++
    (if includeAfterword then page.afterword.toList else [])

/-- The horizontal-rule separator joined between zones. -/
def hrSep : List Char := "\n<hr/>\n".data

/-- The fixed placeholder paragraph substituted when no zone produced
content. -/
def placeholderBody : List Char := "<p>(no body found)</p>".data

/-- Model of `extract_episode` on an already-fetched page (fetching is
delegated to the client; the page argument stands for the parsed response). -/
def extract_episode (page : Page) (url : List Char)
    (includePreface includeAfterword : Bool) (defaultTitle : List Char) :
    Episode :=
  let title := page.subtitle.getD defaultTitle
  let parts := partsOf page includePreface includeAfterword
  let body := if parts.isEmpty then placeholderBody
    else List.intercalate hrSep parts
  let idx := (trailNum url).getD 1
  ⟨idx, title, url, body⟩

/-- Model of `build_css`: the base rules, plus the vertical-writing rules
when requested, joined by newlines with a trailing newline. -/
def build_css (vertical : Bool) : List Char :=
  let base := [
    "body \x7b line-height: 1.8; \x7d".data,
    "h1 \x7b font-size: 1.2em; margin: 0 0 1em 0; \x7d".data,
    "hr \x7b border: none; border-top: 1px solid #ccc; margin: 1em 0; \x7d".data,
    "ruby \x7b ruby-position: over; \x7d".data]
  let lines := if vertical then base ++ [
    "body \x7b writing-mode: vertical-rl; \x7d".data,
    "body \x7b text-orientation: mixed; \x7d".data] else base
  List.intercalate "\n".data lines ++ "\n".data

/-- Decimal digit character of a value below ten. -/
def digitChar (d : Nat) : Char :=
  match d with
  | 0 => '0' | 1 => '1' | 2 => '2' | 3 => '3' | 4 => '4'
  | 5 => '5' | 6 => '6' | 7 => '7' | 8 => '8' | 9 => '9'
  | _ => '0'

/-- Decimal digits of `n`, most significant first, with enough fuel to
terminate structurally. -/
def decDigitsAux : Nat → Nat → List Char
  | 0, _ => []
  | fuel + 1, n =>
    if n < 10 then [digitChar n]
    else decDigitsAux fuel (n / 10) ++ [digitChar (n % 10)]

/-- Decimal digits of `n`, the digits of Python `str(n)` for a natural `n`. -/
def decDigits (n : Nat) : List Char := decDigitsAux (n + 1) n

/-- Left-pad a digit string with zeros to width five, the `:05d` format. -/
def pad5 (ds : List Char) : List Char := List.replicate (5 - ds.length) '0' ++ ds

/-- The chapter file name `f"chap_x7bep.index:05dx7d.xhtml"`. -/
def epFileName (i : Nat) : List Char :=
  "chap_".data ++ pad5 (decDigits i) ++ ".xhtml".data

/-- A chapter document of the book model. -/
structure Chapter where
  title : List Char
  fileName : List Char
  lang : List Char
  content : List Char
deriving DecidableEq

/-- An entry of the linear reading order: the navigation document or a
chapter. -/
inductive SpineEntry where
  | nav : SpineEntry
  | chapter : Chapter → SpineEntry
deriving DecidableEq

/-- The displayed chapter heading `f"x7bep.indexx7d. x7bep.titlex7d"`. -/
def chapterTitle (ep : Episode) : List Char :=
  decDigits ep.index ++ ". ".data ++ ep.title

/-- The XHTML shell written as each chapter's content. -/
def chapterContent (language : List Char) (ep : Episode) : List Char :=
  "<?xml version=\"1.0\" encoding=\"utf-8\"?>".data ++
    "<html xmlns=\"http://www.w3.org/1999/xhtml\" lang=\"".data ++ language ++
    "\">".data ++
    "<head><title>".data ++ chapterTitle ep ++ "</title>".data ++
    "<link rel=\"stylesheet\" type=\"text/css\" href=\"style/style.css\" />".data ++
    "</head><body>".data ++
    "<h1>".data ++ chapterTitle ep ++ "</h1>".data ++
    ep.html_body ++
    "</body></html>".data

/-- The chapter built for one episode inside the assembly loop. -/
def chapterFor (language : List Char) (ep : Episode) : Chapter :=
  ⟨chapterTitle ep, epFileName ep.index, language, chapterContent language ep⟩

/-- The assembled book model: metadata, stylesheet, reading order and table
of contents. -/
structure EpubBook where
  identifier : List Char
  title : List Char
  language : List Char
  author : Option (List Char)
  css : List Char
  spine : List SpineEntry
  toc : List Chapter
deriving DecidableEq

/-- The default language argument of `build_epub`. -/
def defaultLanguage : List Char := "ja".data

/-- Model of `build_epub` (serialisation to the output path is the caller's
write effect).  The assembly loop appends, for each episode in input order,
one chapter to both the table of contents and the reading order, which starts
with the navigation document; an empty author string adds no author. -/
def build_epub (identifier bookTitle author : List Char) (episodes : List Episode)
    (vertical : Bool) (language : List Char) : EpubBook :=
  let chapters := episodes.map (chapterFor language)
  { identifier := identifier
    title := bookTitle
    language := language
    author := if author.isEmpty then none else some author
    css := build_css vertical
    spine := SpineEntry.nav :: chapters.map SpineEntry.chapter
    toc := chapters }

/-- The per-URL episode number used by the range filter in `main`: the parsed
number, defaulting to `1` when the pattern does not occur. -/
def urlEpNo (nc u : List Char) : Int :=
  match epNoSearch nc u with
  | some ds => (digitsToNat ds : Int)
  | none => 1

/-- The range-filter predicate of `main`: keep a URL unless a given lower
bound exceeds its number or a given upper bound is below it (both bounds
inclusive, each applied only when given). -/
def inRange (fromEp toEp : Option Int) (n : Int) : Bool :=
  (match fromEp with | some f => !decide (n < f) | none => true) &&
    (match toEp with | some t => !decide (t < n) | none => true)

/-- The episode-range filter loop of `main`. -/
def filterByRange (fromEp toEp : Option Int) (nc : List Char)
    (urls : List (List Char)) : List (List Char) :=
  urls.filter (fun u => inRange fromEp toEp (urlEpNo nc u))

/-- The network oracle: every `client.get` of a URL either yields a parsed
page or raises a fetch error (retry exhaustion inside the client is folded
into the error case). -/
structure World (ε : Type) where
  pages : List Char → Except ε Page

/-- Externally visible effects of a run: a progress line per fetched episode,
and the single output-file write. -/
inductive Effect where
  | fetched : List Char → Effect
  | wrote : List Char → Effect
deriving DecidableEq

/-- The fatal outcomes of a run. -/
inductive MainError (ε : Type) where
  | resolution : MainError ε
  | fetch : ε → MainError ε
  | emptyRange : MainError ε
deriving DecidableEq

/-- The command-line arguments consumed by the modelled part of `main`. -/
structure Args where
  url : List Char
  out : List Char
  fromEp : Option Int := none
  toEp : Option Int := none
  vertical : Bool := false
  noPreface : Bool := false
  noAfterword : Bool := false

/-- The episode-fetch loop of `main`: fetch each URL in order, emitting a
progress effect per success; a fetch error aborts the loop at once. -/
def fetchEpisodes {ε : Type} (w : World ε) (includeP includeA : Bool)
    (defTitle : List Char) :
    List (List Char) → List Effect × Except ε (List Episode)
  | [] => ([], Except.ok [])
  | u :: rest =>
    match w.pages u with
    | Except.error e => ([], Except.error e)
    | Except.ok pg =>
      let ep := extract_episode pg u includeP includeA defTitle
      let (effs, res) := fetchEpisodes w includeP includeA defTitle rest
      (Effect.fetched u :: effs, res.map (fun eps => ep :: eps))

/-- The discovered episode URLs: the parsed index anchors, or the index page
itself as the sole episode when none matched. -/
def discoveredUrls (p : Page) (nc : List Char) : List (List Char) :=
  let l := parse_episode_urls p.anchors nc baseUrl
  if l.isEmpty then [normalize_index_url nc] else l

/-- Model of `main` downstream of argument parsing: resolution, index fetch,
discovery, range filtering, the episode loop, and assembly.  The returned
effects list is the run's observable trace; the output file is written (and
the book model produced) only on the success path.  The episode-count API
call swallows every error and only affects a final console line, which is
outside the modelled surface. -/
def mainModel {ε : Type} (w : World ε) (a : Args) :
    List Effect × Except (MainError ε) (List Char × EpubBook) :=
  match extract_ncode a.url with
  | Except.error _ => ([], Except.error MainError.resolution)
  | Except.ok nc =>
    match w.pages (normalize_index_url nc) with
    | Except.error e => ([], Except.error (MainError.fetch e))
    | Except.ok ipage =>
      let bookTitle := ipage.novelTitle.getD nc
      let author := ipage.writerName.getD []
      let filtered := filterByRange a.fromEp a.toEp nc (discoveredUrls ipage nc)
      match fetchEpisodes w (!a.noPreface) (!a.noAfterword) bookTitle filtered with
      | (effs, Except.error e) => (effs, Except.error (MainError.fetch e))
      | (effs, Except.ok eps) =>
        if eps.isEmpty then (effs, Except.error MainError.emptyRange)
        else
          let outFile := a.out ++ "/".data ++ nc ++ ".epub".data
          let book := build_epub ("narou:".data ++ nc) bookTitle author eps
            a.vertical defaultLanguage
          (effs ++ [Effect.wrote outFile], Except.ok (outFile, book))

/-- The filtered episode-URL list a run works through, recomputed from the
oracle (empty when resolution or the index fetch already failed). -/
def pipelineFiltered {ε : Type} (w : World ε) (a : Args) : List (List Char) :=
  match extract_ncode a.url with
  | Except.error _ => []
  | Except.ok nc =>
    match w.pages (normalize_index_url nc) with
    | Except.error _ => []
    | Except.ok ipage => filterByRange a.fromEp a.toEp nc (discoveredUrls ipage nc)

/-- Anchor list of the simulated index page with episode numbers 1, 3, 3, 2
(one duplicate) and one unrelated link. -/
def sampleHrefs : List (List Char) :=
  ["/n9876ab/1/".data, "/n9876ab/3/".data, "/n9876ab/3/".data,
   "/n9876ab/2/".data, "/other/page/".data]

/-- Episode URL `n` of the sample work `n1234ab`. -/
def sampleUrl (k : Nat) : List Char :=
  "https://ncode.syosetu.com/n1234ab/".data ++ decDigits k ++ "/".data

/-- The discovered episode URLs 1..10 of the sample work. -/
def sampleUrls : List (List Char) := (List.range' 1 10).map sampleUrl

/-- An episode page with just a main body. -/
def sampleEpisodePage : Page := { honbun := some "x".data }

/-- Episodes built from the range-filtered sample URLs, as the fetch loop
would build them from pages shaped like `sampleEpisodePage`. -/
def sampleEpisodes : List Episode :=
  (filterByRange (some 5) (some 7) "n1234ab".data sampleUrls).map
    (fun u => extract_episode sampleEpisodePage u true true "T".data)

/-- The index page of the abort-scenario oracle: two episode anchors. -/
def abortIndexPage : Page := { anchors := ["/n1234ab/1/".data, "/n1234ab/2/".data] }

/-- An oracle on which episode 1 fetches fine and episode 2 exhausts its
retries. -/
def abortWorld : World Nat :=
  ⟨fun u =>
    if u = normalize_index_url "n1234ab".data then Except.ok abortIndexPage
    else if u = "https://ncode.syosetu.com/n1234ab/1/".data then
      Except.ok sampleEpisodePage
    else Except.error 7⟩

/-- Arguments of the abort scenario. -/
def abortArgs : Args := { url := "n1234ab".data, out := "out".data }

/-- Value of a digit character built from a value below ten. -/
theorem digVal_digitChar (d : Nat) (h : d < 10) : digVal (digitChar d) = d := by
  interval_cases d <;> rfl

/-- Appending one digit multiplies the value by ten and adds the digit. -/
theorem digitsToNat_concat (l : List Char) (c : Char) :
    digitsToNat (l ++ [c]) = 10 * digitsToNat l + digVal c := by
  simp [digitsToNat, List.foldl_append]

/-- The decimal rendering evaluates back to the rendered number. -/
theorem digitsToNat_decDigitsAux (fuel : Nat) :
    ∀ n, n < fuel → digitsToNat (decDigitsAux fuel n) = n := by
  induction fuel with
  | zero => omega
  | succ f ih =>
    intro n hn
    unfold decDigitsAux
    by_cases h10 : n < 10
    · simp [h10, digitsToNat, digVal_digitChar n h10]
    · have hpos : 0 < n := by omega
      have hdiv : n / 10 < n := Nat.div_lt_self hpos (by omega)
      simp only [if_neg h10]
      rw [digitsToNat_concat, ih (n / 10) (by omega),
        digVal_digitChar (n % 10) (Nat.mod_lt _ (by omega))]
      omega

/-- Round trip of the decimal rendering. -/
theorem digitsToNat_decDigits (n : Nat) : digitsToNat (decDigits n) = n :=
  digitsToNat_decDigitsAux (n + 1) n (by omega)

/-- Leading zero padding does not change the parsed value. -/
theorem digitsToNat_replicate_zero (k : Nat) (ds : List Char) :
    digitsToNat (List.replicate k '0' ++ ds) = digitsToNat ds := by
  induction k with
  | zero => simp
  | succ m ih =>
    rw [List.replicate_succ, List.cons_append]
    simpa [digitsToNat] using ih

/-- The padded rendering still evaluates back to the number. -/
theorem digitsToNat_pad5_decDigits (n : Nat) :
    digitsToNat (pad5 (decDigits n)) = n := by
  rw [pad5, digitsToNat_replicate_zero, digitsToNat_decDigits]

/-- Claim C10: in `build_epub`, each chapter's file name is a function of the
episode's index alone (`chap_` followed by the zero-padded index); two
distinct indices give distinct chapter file names and two equal indices give
the same chapter file name (the file-name map over the assembled table of
contents is exactly `epFileName` of each episode's index, and `epFileName`
is injective). -/
theorem c10_chapter_filenames :
    (∀ i j : Nat, epFileName i = epFileName j ↔ i = j) ∧
    (∀ identifier bookTitle author episodes vertical language,
      ((build_epub identifier bookTitle author episodes vertical
          language).toc.map Chapter.fileName) =
        episodes.map (fun e => epFileName e.index)) := by
  constructor
  · intro i j
    constructor
    · intro h
      unfold epFileName at h
      have h1 : "chap_".data ++ pad5 (decDigits i)
          = "chap_".data ++ pad5 (decDigits j) := List.append_cancel_right h
      have h2 : pad5 (decDigits i) = pad5 (decDigits j) :=
        List.append_cancel_left h1
      calc i = digitsToNat (pad5 (decDigits i)) := (digitsToNat_pad5_decDigits i).symm
        _ = digitsToNat (pad5 (decDigits j)) := by rw [h2]
        _ = j := digitsToNat_pad5_decDigits j
    · intro h; rw [h]
  · intro identifier bookTitle author episodes vertical language
    simp [build_epub, chapterFor, List.map_map, Function.comp_def]

/-- Claim C7: for every episode sequence given to `build_epub`, the reading
order (spine) is exactly the navigation document followed by the chapters in
input order, and the table of contents lists the same chapters in the same
relative order. -/
theorem c7_spine_toc_order (identifier bookTitle author : List Char)
    (episodes : List Episode) (vertical : Bool) (language : List Char) :
    (build_epub identifier bookTitle author episodes vertical language).spine =
      SpineEntry.nav ::
        ((build_epub identifier bookTitle author episodes vertical
            language).toc.map SpineEntry.chapter) ∧
    (build_epub identifier bookTitle author episodes vertical language).toc =
      episodes.map (chapterFor language) :=
  ⟨rfl, rfl⟩

/-- Every captured zone markup of a page comes from one of the three zone
fields. -/
theorem mem_partsOf (page : Page) (includePreface includeAfterword : Bool)
    (x : List Char) (hx : x ∈ partsOf page includePreface includeAfterword) :
    page.preface = some x ∨ page.honbun = some x ∨ page.afterword = some x := by
  unfold partsOf at hx
  rcases List.mem_append.mp hx with h | h
  · rcases List.mem_append.mp h with h | h
    · by_cases hp : includePreface
      · rw [if_pos hp] at h
        exact Or.inl (by simpa [Option.mem_toList] using h)
      · rw [if_neg hp] at h
        cases h
    · exact Or.inr (Or.inl (by simpa [Option.mem_toList] using h))
  · by_cases ha : includeAfterword
    · rw [if_pos ha] at h
      exact Or.inr (Or.inr (by simpa [Option.mem_toList] using h))
    · rw [if_neg ha] at h
      cases h

/-- Joining a list whose first block is nonempty yields a nonempty string. -/
theorem intercalate_ne_nil (sep p : List Char) (rest : List (List Char))
    (hp : p ≠ []) : List.intercalate sep (p :: rest) ≠ [] := by
  cases rest with
  | nil => simpa [List.intercalate, List.intersperse] using hp
  | cons q t =>
    intro h
    rw [List.intercalate] at h
    simp at h
    exact hp h.1

/-- Claim C5: for every episode page and every setting of the inclusion
flags, the produced `html_body` equals the fixed placeholder paragraph when
no content zone produced content, and is never the empty string (a captured
zone's markup is nonempty, since a childless element is skipped by the
truthiness test). -/
theorem c5_body_never_empty (page : Page) (url : List Char)
    (includePreface includeAfterword : Bool) (defaultTitle : List Char) :
    (partsOf page includePreface includeAfterword = [] →
      (extract_episode page url includePreface includeAfterword
        defaultTitle).html_body = placeholderBody) ∧
    ((∀ s, page.preface = some s → s ≠ []) →
      (∀ s, page.honbun = some s → s ≠ []) →
      (∀ s, page.afterword = some s → s ≠ []) →
      (extract_episode page url includePreface includeAfterword
        defaultTitle).html_body ≠ []) := by
  constructor
  · intro h
    simp [extract_episode, h]
  · intro h1 h2 h3
    cases hp : partsOf page includePreface includeAfterword with
    | nil =>
      simp [extract_episode, hp]
      decide
    | cons p rest =>
      have hpmem : p ∈ partsOf page includePreface includeAfterword := by
        rw [hp]; exact List.mem_cons_self p rest
      have hpne : p ≠ [] := by
        rcases mem_partsOf page includePreface includeAfterword p hpmem with
          h | h | h
        · exact h1 p h
        · exact h2 p h
        · exact h3 p h
      simpa [extract_episode, hp] using intercalate_ne_nil hrSep p rest hpne

/-- Witness for claim C5: a page lacking all three content zones yields the
placeholder, which is nonempty. -/
theorem c5_witness :
    (extract_episode {} "u".data true true "T".data).html_body
      = placeholderBody ∧
    (extract_episode {} "u".data true true "T".data).html_body ≠ [] :=
  ⟨(c5_body_never_empty {} "u".data true true "T".data).1 rfl,
    (c5_body_never_empty {} "u".data true true "T".data).2
      (fun _ h => Option.noConfusion h) (fun _ h => Option.noConfusion h)
      (fun _ h => Option.noConfusion h)⟩

/-- One step of the retry loop: a successful attempt returns at once. -/
theorem getLoop_cons_ok {ε ρ : Type} (transport : Nat → Except ε ρ)
    (retries a : Nat) (rest : List Nat) (le : Option ε) (r : ρ)
    (htr : transport a = Except.ok r) :
    getLoop transport retries (a :: rest) le =
      ⟨GetOutcome.success r, 1, []⟩ := by
  simp [getLoop, htr]

/-- One step of the retry loop: failure on the final attempt raises it. -/
theorem getLoop_cons_error_last {ε ρ : Type} (transport : Nat → Except ε ρ)
    (a : Nat) (rest : List Nat) (le : Option ε) (e : ε)
    (htr : transport a = Except.error e) :
    getLoop transport a (a :: rest) le = ⟨GetOutcome.raised e, 1, []⟩ := by
  simp [getLoop, htr]

/-- One step of the retry loop: failure before the final attempt records the
error, sleeps the backoff, and continues. -/
theorem getLoop_cons_error {ε ρ : Type} (transport : Nat → Except ε ρ)
    (retries a : Nat) (rest : List Nat) (le : Option ε) (e : ε)
    (htr : transport a = Except.error e) (ha : a ≠ retries) :
    getLoop transport retries (a :: rest) le =
      ⟨(getLoop transport retries rest (some e)).outcome,
        (getLoop transport retries rest (some e)).attempts + 1,
        backoff a :: (getLoop transport retries rest (some e)).sleeps⟩ := by
  simp [getLoop, htr, ha]

/-- The retry loop never reaches the assertion failure once a last error is
recorded or at least one attempt remains. -/
theorem getLoop_no_assert {ε ρ : Type} (transport : Nat → Except ε ρ)
    (retries : Nat) :
    ∀ (l : List Nat) (le : Option ε), (l = [] → le ≠ none) →
      (getLoop transport retries l le).outcome ≠ GetOutcome.assertViolation := by
  intro l
  induction l with
  | nil =>
    intro le h
    cases le with
    | none => exact absurd rfl (h rfl)
    | some e => simp [getLoop]
  | cons a rest ih =>
    intro le _
    cases htr : transport a with
    | ok r => rw [getLoop_cons_ok transport retries a rest le r htr]; simp
    | error e =>
      by_cases ha : a = retries
      · subst ha
        rw [getLoop_cons_error_last transport a rest le e htr]
        simp
      · rw [getLoop_cons_error transport retries a rest le e htr ha]
        exact ih (some e) (fun _ => Option.noConfusion)

/-- The retry loop issues at least one attempt when the attempt list is
nonempty. -/
theorem getLoop_attempts_pos {ε ρ : Type} (transport : Nat → Except ε ρ)
    (retries : Nat) (a : Nat) (rest : List Nat) (le : Option ε) :
    1 ≤ (getLoop transport retries (a :: rest) le).attempts := by
  cases htr : transport a with
  | ok r => rw [getLoop_cons_ok transport retries a rest le r htr]
  | error e =>
    by_cases ha : a = retries
    · subst ha
      rw [getLoop_cons_error_last transport a rest le e htr]
    · rw [getLoop_cons_error transport retries a rest le e htr ha]
      exact Nat.le_add_left 1 _

/-- On an always-failing transport, the retry loop over `range' a m` ending
at `retries` makes exactly `m` attempts, sleeps the backoff of every attempt
but the last, and raises the error of attempt `retries`. -/
theorem getLoop_all_fail {ε ρ : Type} (transport : Nat → Except ε ρ)
    (errs : Nat → ε) (hfail : ∀ k, transport k = Except.error (errs k))
    (retries : Nat) :
    ∀ (m a : Nat) (le : Option ε), 1 ≤ m → a + m = retries + 1 →
      getLoop transport retries (List.range' a m) le =
        ⟨GetOutcome.raised (errs retries), m,
          (List.range' a (m - 1)).map backoff⟩ := by
  intro m
  induction m with
  | zero => omega
  | succ k ih =>
    intro a le _ hsum
    rw [List.range'_succ]
    cases k with
    | zero =>
      have ha : a = retries := by omega
      subst ha
      rw [getLoop_cons_error_last transport a (List.range' (a + 1) 0) le
        (errs a) (hfail a)]
      simp
    | succ k' =>
      have ha : a ≠ retries := by omega
      have hrec := ih (a + 1) (some (errs a)) (by omega) (by omega)
      rw [getLoop_cons_error transport retries a (List.range' (a + 1) (k' + 1))
        le (errs a) (hfail a) ha, hrec]
      simp [List.range'_succ]

/-- Claim C1: for every configured retry count `n >= 1` and a transport that
fails on every attempt, `HttpClient.get` makes exactly `n` attempts, sleeps
`min(5.0, 0.5 * 2 ^ (attempt - 1))` seconds after each failed attempt except
the last, and raises the error of the last attempt rather than returning;
for `n = 3` the backoff sleeps sum to `0.5 + 1.0` seconds. -/
theorem c1_retry_backoff_schedule (n : Nat) (hn : 1 ≤ n) {ε ρ : Type}
    (transport : Nat → Except ε ρ) (errs : Nat → ε)
    (hfail : ∀ k, transport k = Except.error (errs k))
    (delay : ℚ) (timeout : Int) (ua : List Char) :
    ((HttpClient.init delay timeout (n : Int) ua).get transport).attempts = n ∧
    ((HttpClient.init delay timeout (n : Int) ua).get transport).sleeps =
      (List.range' 1 (n - 1)).map backoff ∧
    ((HttpClient.init delay timeout (n : Int) ua).get transport).outcome =
      GetOutcome.raised (errs n) ∧
    (n = 3 →
      ((HttpClient.init delay timeout (n : Int) ua).get
        transport).sleeps.sum = 1 / 2 + 1) := by
  have htn : (HttpClient.init delay timeout (n : Int) ua).retries.toNat = n := by
    have hret : (HttpClient.init delay timeout (n : Int) ua).retries = (n : Int) :=
      max_eq_right (by exact_mod_cast hn)
    rw [hret, Int.toNat_natCast]
  have key := getLoop_all_fail transport errs hfail n n 1 none hn (by omega)
  have hget : (HttpClient.init delay timeout (n : Int) ua).get transport =
      ⟨GetOutcome.raised (errs n), n, (List.range' 1 (n - 1)).map backoff⟩ := by
    rw [HttpClient.get, htn, key]
  rw [hget]
  refine ⟨rfl, rfl, rfl, ?_⟩
  intro h3
  subst h3
  have h1 : backoff 1 = 1 / 2 := by
    rw [backoff]
    norm_num
  have h2 : backoff 2 = 1 := by
    rw [backoff]
    norm_num
  norm_num [List.range'_succ, h1, h2]

/-- Witness for claim C1 at `n = 3` with a transport raising the attempt
number: three attempts, backoff sleeps summing to `0.5 + 1.0`, and the error
of attempt 3 raised. -/
theorem c1_witness :
    ((HttpClient.init 1 20 (3 : Int) "ua".data).get
      (fun k => (Except.error k : Except Nat Unit))).attempts = 3 ∧
    ((HttpClient.init 1 20 (3 : Int) "ua".data).get
      (fun k => (Except.error k : Except Nat Unit))).sleeps.sum = 1 / 2 + 1 ∧
    ((HttpClient.init 1 20 (3 : Int) "ua".data).get
      (fun k => (Except.error k : Except Nat Unit))).outcome =
      GetOutcome.raised 3 :=
  have h := c1_retry_backoff_schedule 3 (by omega)
    (fun k => (Except.error k : Except Nat Unit)) (fun k => k)
    (fun _ => rfl) 1 20 "ua".data
  ⟨h.1, h.2.2.2 rfl, h.2.2.1⟩

/-- Claim C9: for every constructed `HttpClient`, including zero and negative
constructor arguments, the effective retry count is at least 1 and the
effective delay at least 0; `get` always issues at least one attempt, and the
internal assertion on the all-attempts-failed path can never fail. -/
theorem c9_client_clamps (delay : ℚ) (timeout retries : Int) (ua : List Char) :
    1 ≤ (HttpClient.init delay timeout retries ua).retries ∧
    0 ≤ (HttpClient.init delay timeout retries ua).delay ∧
    ∀ (ε ρ : Type) (transport : Nat → Except ε ρ),
      1 ≤ ((HttpClient.init delay timeout retries ua).get transport).attempts ∧
      ((HttpClient.init delay timeout retries ua).get transport).outcome ≠
        GetOutcome.assertViolation := by
  refine ⟨le_max_left 1 retries, le_max_left 0 delay, ?_⟩
  intro ε ρ transport
  have hpos : 1 ≤ (HttpClient.init delay timeout retries ua).retries.toNat := by
    have h1 : (1 : Int) ≤ max 1 retries := le_max_left 1 retries
    have : (HttpClient.init delay timeout retries ua).retries = max 1 retries := rfl
    omega
  rw [HttpClient.get]
  cases hR : (HttpClient.init delay timeout retries ua).retries.toNat with
  | zero => omega
  | succ m =>
    rw [List.range'_succ]
    exact ⟨getLoop_attempts_pos transport (m + 1) 1 (List.range' 2 m) none,
      getLoop_no_assert transport (m + 1) (1 :: List.range' 2 m) none
        (fun h => List.noConfusion h)⟩

/-- Lowercasing preserves the digit class. -/
theorem isDig_lowerC (c : Char) : isDig (lowerC c) = isDig c := by
  unfold lowerC
  split <;> rfl

/-- Lowercasing preserves the ASCII-letter class. -/
theorem isAl_lowerC (c : Char) : isAl (lowerC c) = isAl c := by
  unfold lowerC
  split <;> rfl

/-- A lowercase letter is fixed by lowercasing. -/
theorem lowerC_eq_self_of_isLow (c : Char) (h : isLow c = true) :
    lowerC c = c := by
  unfold lowerC
  split <;> first | rfl | exact absurd h (by decide)

/-- A digit is fixed by lowercasing. -/
theorem lowerC_eq_self_of_isDig (c : Char) (h : isDig c = true) :
    lowerC c = c := by
  unfold lowerC
  split <;> first | rfl | exact absurd h (by decide)

/-- Lowercasing sends every character to a lowercase letter or leaves it
unchanged. -/
theorem lowerC_cases (c : Char) : isLow (lowerC c) = true ∨ lowerC c = c := by
  unfold lowerC
  split <;> first | exact Or.inl (by decide) | exact Or.inr rfl

/-- ASCII lowercasing is idempotent. -/
theorem lowerC_lowerC (c : Char) : lowerC (lowerC c) = lowerC c := by
  rcases lowerC_cases c with h | h
  · exact lowerC_eq_self_of_isLow (lowerC c) h
  · rw [h]
    exact h

/-- A digit is not stripped whitespace. -/
theorem not_space_of_isDig (c : Char) (h : isDig c = true) :
    isPySpace c = false := by
  simp only [isPySpace, Bool.or_eq_false_iff, beq_eq_false_iff_ne, ne_eq]
  repeat' constructor
  all_goals intro hc
  all_goals rw [hc] at h
  all_goals exact absurd h (by decide)

/-- An ASCII letter is not stripped whitespace. -/
theorem not_space_of_isAl (c : Char) (h : isAl c = true) :
    isPySpace c = false := by
  simp only [isPySpace, Bool.or_eq_false_iff, beq_eq_false_iff_ne, ne_eq]
  repeat' constructor
  all_goals intro hc
  all_goals rw [hc] at h
  all_goals exact absurd h (by decide)

/-- Dropping a prefix of characters none of which satisfy the test is the
identity. -/
theorem dropWhile_eq_self_of_none (p : Char → Bool) (l : List Char)
    (h : ∀ x ∈ l, p x = false) : l.dropWhile p = l := by
  cases l with
  | nil => rfl
  | cons a t =>
    have := h a (List.mem_cons_self a t)
    simp [List.dropWhile_cons, this]

/-- Stripping a string containing no whitespace is the identity. -/
theorem pyStrip_eq_self (s : List Char) (h : ∀ x ∈ s, isPySpace x = false) :
    pyStrip s = s := by
  unfold pyStrip stripEnds
  rw [dropWhile_eq_self_of_none _ s h,
    dropWhile_eq_self_of_none _ s.reverse
      (fun x hx => h x (List.mem_reverse.mp hx)),
    List.reverse_reverse]

/-- Every character of a bare identifier is the leading letter, a digit, or
an ASCII letter. -/
theorem bare_chars (s : List Char) (h : bareMatch s = true) :
    ∀ x ∈ s, ((x = 'n' ∨ x = 'N') ∨ isDig x = true ∨ isAl x = true) := by
  cases s with
  | nil => cases h
  | cons c rest =>
    unfold bareMatch at h
    simp only [Bool.and_eq_true, Bool.or_eq_true, beq_iff_eq,
      decide_eq_true_eq] at h
    obtain ⟨⟨⟨hc, _⟩, hall⟩, _⟩ := h
    intro x hx
    rcases List.mem_cons.mp hx with rfl | hx'
    · exact Or.inl hc
    · rw [← List.takeWhile_append_dropWhile isDig rest] at hx'
      rcases List.mem_append.mp hx' with hx1 | hx2
      · exact Or.inr (Or.inl (List.mem_takeWhile_imp hx1))
      · exact Or.inr (Or.inr (List.all_eq_true.mp hall x hx2))

/-- A bare identifier contains no whitespace, so stripping leaves it
unchanged. -/
theorem bare_pyStrip (s : List Char) (h : bareMatch s = true) :
    pyStrip s = s := by
  apply pyStrip_eq_self
  intro x hx
  rcases bare_chars s h x hx with (rfl | rfl) | hd | ha
  · decide
  · decide
  · exact not_space_of_isDig x hd
  · exact not_space_of_isAl x ha

/-- Lowercasing a bare identifier yields a bare identifier. -/
theorem bare_map_lower (s : List Char) (h : bareMatch s = true) :
    bareMatch (s.map lowerC) = true := by
  cases s with
  | nil => cases h
  | cons c rest =>
    simp only [List.map_cons, bareMatch] at h ⊢
    rw [List.takeWhile_map, List.dropWhile_map,
      show isDig ∘ lowerC = isDig from funext isDig_lowerC, List.all_map,
      show isAl ∘ lowerC = isAl from funext isAl_lowerC]
    simp only [List.length_map]
    simp only [Bool.and_eq_true, Bool.or_eq_true, beq_iff_eq,
      decide_eq_true_eq] at h ⊢
    obtain ⟨⟨⟨hc, h2⟩, h3⟩, h4⟩ := h
    refine ⟨⟨⟨?_, h2⟩, h3⟩, h4⟩
    rcases hc with rfl | rfl
    · exact Or.inl rfl
    · exact Or.inl (by decide)

/-- Lowercasing a string twice is the same as lowercasing it once. -/
theorem map_lowerC_idem (s : List Char) :
    (s.map lowerC).map lowerC = s.map lowerC := by
  rw [List.map_map, show (lowerC ∘ lowerC) = lowerC from funext lowerC_lowerC]

/-- Resolution of a bare identifier returns it lowercased. -/
theorem extract_ncode_bare (s : List Char) (h : bareMatch s = true) :
    extract_ncode s = Except.ok (s.map lowerC) := by
  simp only [extract_ncode, bare_pyStrip s h, h, if_true]

/-- Claim C6: for every string matching the bare-identifier pattern
(case-insensitively), resolution is idempotent — resolving the resolved
identifier returns it unchanged — and resolving an already-canonical
(lowercase) identifier yields itself. -/
theorem c6_resolution_idempotent (s : List Char) (h : bareMatch s = true) :
    extract_ncode s = Except.ok (s.map lowerC) ∧
    extract_ncode (s.map lowerC) = Except.ok (s.map lowerC) ∧
    (s.map lowerC = s → extract_ncode s = Except.ok s) := by
  have h1 := extract_ncode_bare s h
  have h2 := extract_ncode_bare (s.map lowerC) (bare_map_lower s h)
  rw [map_lowerC_idem] at h2
  exact ⟨h1, h2, fun hs => by rw [h1, hs]⟩

/-- Witness for claim C6 on a concrete mixed-case identifier. -/
theorem c6_witness :
    bareMatch "N1234AB".data = true ∧
    extract_ncode "N1234AB".data = Except.ok "n1234ab".data ∧
    extract_ncode "n1234ab".data = Except.ok "n1234ab".data :=
  ⟨by decide,
    (c6_resolution_idempotent "N1234AB".data (by decide)).1,
    (c6_resolution_idempotent "N1234AB".data (by decide)).2.1⟩

/-- Counterexample to claim C4: a URL whose parsed path is empty but whose
query string embeds a code.  The claim predicts a `ResolutionError` (no
pattern match exists in the path, which is empty), but `extract_ncode` falls
back to searching the whole raw string (`urlparse(raw).path or raw`) and
succeeds. -/
theorem c4_counterexample :
    urlparsePath (pyStrip "https://example.com?x=/n1234ab/".data) = [] ∧
    ncodeSearch
      (urlparsePath (pyStrip "https://example.com?x=/n1234ab/".data)
        ++ ['/']) = none ∧
    extract_ncode "https://example.com?x=/n1234ab/".data ≠ Except.error () ∧
    extract_ncode "https://example.com?x=/n1234ab/".data =
      Except.ok "n1234ab".data := by
  refine ⟨by decide, by decide, ?_, by decide⟩
  decide

/-- Claim C4 as amended: for every input string that is not a bare code,
`extract_ncode` parses it as a URL and extracts the path, falling back to the
whole stripped input string when that path is empty; it returns the
lowercased identifier of the first code-pattern match bounded by path
separators in that search string (a separator being appended at its end), and
raises a `ResolutionError` exactly when no such match exists there.  The
concrete cases show extraction succeeding regardless of surrounding path
segments and query strings. -/
theorem c4_amended_path_search :
    (∀ s : List Char, bareMatch (pyStrip s) = false →
      ((extract_ncode s = Except.error () ↔
          ncodeSearch (effectivePath (pyStrip s) ++ ['/']) = none) ∧
        ∀ g, ncodeSearch (effectivePath (pyStrip s) ++ ['/']) = some g →
          extract_ncode s = Except.ok (g.map lowerC))) ∧
    extract_ncode
      "https://ncode.syosetu.com/novelview/infotop/ncode/n4830bu/".data =
      Except.ok "n4830bu".data ∧
    extract_ncode "https://ncode.syosetu.com/N1234AB/3/?p=2".data =
      Except.ok "n1234ab".data ∧
    extract_ncode "https://ncode.syosetu.com/".data = Except.error () := by
  refine ⟨?_, by decide, by decide, by decide⟩
  intro s h
  constructor
  · simp only [extract_ncode, h, if_false]
    cases hs : ncodeSearch (effectivePath (pyStrip s) ++ ['/']) with
    | none => simp
    | some g => simp
  · intro g hg
    simp only [extract_ncode, h, hg]
    simp

/-- Witness for the amended claim C4 on a URL with a non-bare input whose
path embeds the identifier. -/
theorem c4_witness :
    extract_ncode "https://ncode.syosetu.com/n5678zz/123/".data =
      Except.ok "n5678zz".data :=
  (c4_amended_path_search.1 "https://ncode.syosetu.com/n5678zz/123/".data
    (by decide)).2 "n5678zz".data (by decide)

/-- A URL produced by the anchor scan was not yet seen at the start. -/
theorem collectUrls_not_seen (nc base : List Char) :
    ∀ (l seen : List (List Char)) (x : List Char),
      x ∈ collectUrls nc base l seen → x ∉ seen := by
  intro l
  induction l with
  | nil => intro seen x hx; cases hx
  | cons hh t ih =>
    intro seen x hx
    cases hp : procHref nc base hh with
    | none =>
      simp only [collectUrls, hp] at hx
      exact ih seen x hx
    | some abs =>
      simp only [collectUrls, hp] at hx
      by_cases hseen : abs ∈ seen
      · rw [if_pos hseen] at hx
        exact ih seen x hx
      · rw [if_neg hseen] at hx
        rcases List.mem_cons.mp hx with rfl | hx'
        · exact hseen
        · intro hc
          exact ih (abs :: seen) x hx' (List.mem_cons_of_mem _ hc)

/-- The anchor scan never emits the same URL twice. -/
theorem collectUrls_nodup (nc base : List Char) :
    ∀ (l seen : List (List Char)), (collectUrls nc base l seen).Nodup := by
  intro l
  induction l with
  | nil => intro seen; exact List.nodup_nil
  | cons hh t ih =>
    intro seen
    cases hp : procHref nc base hh with
    | none => simp only [collectUrls, hp]; exact ih seen
    | some abs =>
      simp only [collectUrls, hp]
      by_cases hseen : abs ∈ seen
      · rw [if_pos hseen]; exact ih seen
      · rw [if_neg hseen]
        refine List.Nodup.cons ?_ (ih (abs :: seen))
        intro hc
        exact collectUrls_not_seen nc base t (abs :: seen) abs hc
          (List.mem_cons_self _ _)

/-- Membership in the anchor-scan output: exactly the unseen URLs produced by
some anchor. -/
theorem collectUrls_mem (nc base : List Char) :
    ∀ (l seen : List (List Char)) (x : List Char),
      x ∈ collectUrls nc base l seen ↔
        (x ∉ seen ∧ ∃ h ∈ l, procHref nc base h = some x) := by
  intro l
  induction l with
  | nil => intro seen x; simp [collectUrls]
  | cons hh t ih =>
    intro seen x
    cases hp : procHref nc base hh with
    | none =>
      simp only [collectUrls, hp]
      rw [ih]
      constructor
      · rintro ⟨hx, h', hmem, hsome⟩
        exact ⟨hx, h', List.mem_cons_of_mem _ hmem, hsome⟩
      · rintro ⟨hx, h', hmem, hsome⟩
        rcases List.mem_cons.mp hmem with rfl | hmem'
        · rw [hp] at hsome; cases hsome
        · exact ⟨hx, h', hmem', hsome⟩
    | some abs =>
      simp only [collectUrls, hp]
      by_cases hseen : abs ∈ seen
      · rw [if_pos hseen, ih]
        constructor
        · rintro ⟨hx, h', hmem, hsome⟩
          exact ⟨hx, h', List.mem_cons_of_mem _ hmem, hsome⟩
        · rintro ⟨hx, h', hmem, hsome⟩
          rcases List.mem_cons.mp hmem with rfl | hmem'
          · rw [hp] at hsome
            exact absurd (Option.some.inj hsome ▸ hseen) hx
          · exact ⟨hx, h', hmem', hsome⟩
      · rw [if_neg hseen]
        constructor
        · intro hx
          rcases List.mem_cons.mp hx with rfl | hx'
          · exact ⟨hseen, hh, List.mem_cons_self _ _, hp⟩
          · obtain ⟨hnot, h', hmem, hsome⟩ := (ih (abs :: seen) x).mp hx'
            exact ⟨fun hc => hnot (List.mem_cons_of_mem _ hc), h',
              List.mem_cons_of_mem _ hmem, hsome⟩
        · rintro ⟨hx, h', hmem, hsome⟩
          rcases List.mem_cons.mp hmem with rfl | hmem'
          · rw [hp] at hsome
            have hxa : abs = x := Option.some.inj hsome
            rw [← hxa]
            exact List.mem_cons_self _ _
          · by_cases hxabs : x = abs
            · rw [hxabs]; exact List.mem_cons_self _ _
            · refine List.mem_cons_of_mem _ ((ih (abs :: seen) x).mpr
                ⟨?_, h', hmem', hsome⟩)
              intro hc
              rcases List.mem_cons.mp hc with h1 | h1
              · exact hxabs h1
              · exact hx h1

/-- Claim C2: `parse_episode_urls` returns the matching anchor targets
deduplicated by exact absolute-URL string and sorted ascending by the
episode-number key `epNoKey`, which is the integer parsed from the URL when
the episode-number pattern occurs and the arbitrarily large sentinel
`10 ^ 18` otherwise (such URLs therefore sort last); in particular, anchors
for episode numbers 1, 3, 3, 2 yield exactly the episode list 1, 2, 3. -/
theorem c2_episode_discovery :
    (∀ (hrefs : List (List Char)) (nc base : List Char),
      (parse_episode_urls hrefs nc base).Pairwise
        (fun u v => epNoKey nc u ≤ epNoKey nc v) ∧
      (parse_episode_urls hrefs nc base).Nodup ∧
      (∀ u, u ∈ parse_episode_urls hrefs nc base ↔
        ∃ h ∈ hrefs, procHref nc base h = some u)) ∧
    (∀ nc u, epNoSearch nc u = none → epNoKey nc u = 10 ^ 18) ∧
    (∀ nc u ds, epNoSearch nc u = some ds → epNoKey nc u = digitsToNat ds) ∧
    parse_episode_urls sampleHrefs "n9876ab".data baseUrl =
      ["https://ncode.syosetu.com/n9876ab/1/".data,
       "https://ncode.syosetu.com/n9876ab/2/".data,
       "https://ncode.syosetu.com/n9876ab/3/".data] := by
  refine ⟨?_, ?_, ?_, by decide⟩
  · intro hrefs nc base
    haveI hT : IsTotal (List Char) (fun u v => epNoKey nc u ≤ epNoKey nc v) :=
      ⟨fun a b => Nat.le_total _ _⟩
    haveI hTr : IsTrans (List Char) (fun u v => epNoKey nc u ≤ epNoKey nc v) :=
      ⟨fun _ _ _ hab hbc => Nat.le_trans hab hbc⟩
    have hperm := List.perm_insertionSort
      (fun u v => epNoKey nc u ≤ epNoKey nc v) (collectUrls nc base hrefs [])
    refine ⟨List.sorted_insertionSort _ _, ?_, ?_⟩
    · exact hperm.nodup_iff.mpr (collectUrls_nodup nc base hrefs [])
    · intro u
      rw [parse_episode_urls, hperm.mem_iff, collectUrls_mem]
      simp
  · intro nc u h
    rw [epNoKey, h]
  · intro nc u ds h
    rw [epNoKey, h]

/-- Witness for claim C2: episode URL 2 is produced by its anchor and appears
in the discovered list. -/
theorem c2_witness :
    "https://ncode.syosetu.com/n9876ab/2/".data ∈
      parse_episode_urls sampleHrefs "n9876ab".data baseUrl :=
  ((c2_episode_discovery.1 sampleHrefs "n9876ab".data baseUrl).2.2 _).mpr
    ⟨"/n9876ab/2/".data, by decide, by decide⟩

/-- Claim C8: the range filter retains exactly the URLs whose parsed episode
number satisfies the given inclusive bounds (each applied only when given),
preserving order; `from_ep = 5, to_ep = 7` over discovered episodes 1..10
yields exactly episodes 5, 6, 7, and the assembled book's chapter order
matches this filtered order. -/
theorem c8_range_filter :
    (∀ (fromEp toEp : Option Int) (nc : List Char) (urls : List (List Char))
        (u ds : List Char), epNoSearch nc u = some ds →
      (u ∈ filterByRange fromEp toEp nc urls ↔
        u ∈ urls ∧
          (∀ f, fromEp = some f → f ≤ (digitsToNat ds : Int)) ∧
          (∀ t, toEp = some t → (digitsToNat ds : Int) ≤ t))) ∧
    (∀ fromEp toEp nc urls, (filterByRange fromEp toEp nc urls).Sublist urls) ∧
    filterByRange (some 5) (some 7) "n1234ab".data sampleUrls =
      [sampleUrl 5, sampleUrl 6, sampleUrl 7] ∧
    ((build_epub "narou:n1234ab".data "T".data [] sampleEpisodes false
        defaultLanguage).toc.map Chapter.fileName) =
      [epFileName 5, epFileName 6, epFileName 7] := by
  refine ⟨?_, ?_, by decide, by decide⟩
  · intro fromEp toEp nc urls u ds h
    rw [filterByRange, List.mem_filter]
    have hu : urlEpNo nc u = (digitsToNat ds : Int) := by rw [urlEpNo, h]
    rw [hu]
    cases fromEp <;> cases toEp <;> simp [inRange, not_lt]
  · intro fromEp toEp nc urls
    exact List.filter_sublist _

/-- Witness for claim C8: episode 6 has parsed number 6, within the bounds,
so its URL is retained. -/
theorem c8_witness :
    sampleUrl 6 ∈ filterByRange (some 5) (some 7) "n1234ab".data sampleUrls :=
  (c8_range_filter.1 (some 5) (some 7) "n1234ab".data sampleUrls
      (sampleUrl 6) "6".data (by decide)).mpr
    ⟨by decide, fun f hf => by cases hf; decide,
      fun t ht => by cases ht; decide⟩

/-- The episode-fetch loop emits only progress effects, never a file write. -/
theorem fetchEpisodes_no_wrote {ε : Type} (w : World ε) (ip ia : Bool)
    (dt : List Char) :
    ∀ (l : List (List Char)) (p : List Char),
      Effect.wrote p ∉ (fetchEpisodes w ip ia dt l).1 := by
  intro l
  induction l with
  | nil => intro p h; cases h
  | cons u rest ih =>
    intro p h
    cases hp : w.pages u with
    | error e => simp only [fetchEpisodes, hp] at h; cases h
    | ok pg =>
      simp only [fetchEpisodes, hp] at h
      rcases List.mem_cons.mp h with heq | hmem
      · cases heq
      · exact ih p hmem

/-- The episode-fetch loop fails whenever some URL in its list fails. -/
theorem fetchEpisodes_error_of_mem {ε : Type} (w : World ε) (ip ia : Bool)
    (dt : List Char) :
    ∀ l : List (List Char), (∃ u ∈ l, ∃ e, w.pages u = Except.error e) →
      ∃ e, (fetchEpisodes w ip ia dt l).2 = Except.error e := by
  intro l
  induction l with
  | nil => rintro ⟨u, hu, _⟩; cases hu
  | cons v rest ih =>
    rintro ⟨u, hu, e, he⟩
    cases hp : w.pages v with
    | error e' => exact ⟨e', by simp [fetchEpisodes, hp]⟩
    | ok pg =>
      rcases List.mem_cons.mp hu with rfl | hu'
      · rw [hp] at he; cases he
      · obtain ⟨e2, he2⟩ := ih ⟨u, hu', e, he⟩
        exact ⟨e2, by simp [fetchEpisodes, hp, he2, Except.map]⟩

/-- Claim C3: whenever fetching some filtered episode fails with retry
exhaustion, the run aborts before assembly — the result is an error and no
output-file write appears in the trace (work on earlier episodes is only
progress output); conversely a write in the trace happens only on the
success path. -/
theorem c3_abort_before_write {ε : Type} (w : World ε) (a : Args) :
    (∀ p, Effect.wrote p ∈ (mainModel w a).1 →
      ∃ v, (mainModel w a).2 = Except.ok v) ∧
    ((∃ u ∈ pipelineFiltered w a, ∃ e, w.pages u = Except.error e) →
      (∃ err, (mainModel w a).2 = Except.error err) ∧
      ∀ p, Effect.wrote p ∉ (mainModel w a).1) := by
  cases hnc : extract_ncode a.url with
  | error e0 =>
    refine ⟨?_, fun _ => ⟨⟨MainError.resolution, by simp [mainModel, hnc]⟩, ?_⟩⟩
      <;> intro p hp <;> simp [mainModel, hnc] at hp
  | ok nc =>
    cases hip : w.pages (normalize_index_url nc) with
    | error e =>
      refine ⟨?_, fun _ =>
        ⟨⟨MainError.fetch e, by simp [mainModel, hnc, hip]⟩, ?_⟩⟩
        <;> intro p hp <;> simp [mainModel, hnc, hip] at hp
    | ok ipage =>
      rcases hfe : fetchEpisodes w (!a.noPreface) (!a.noAfterword)
        (ipage.novelTitle.getD nc)
        (filterByRange a.fromEp a.toEp nc (discoveredUrls ipage nc))
        with ⟨effs, res⟩
      cases res with
      | error e =>
        have hmain : mainModel w a = (effs, Except.error (MainError.fetch e)) := by
          simp [mainModel, hnc, hip, hfe]
        rw [hmain]
        constructor
        · intro p hp
          exact absurd hp (by
            have := fetchEpisodes_no_wrote w (!a.noPreface) (!a.noAfterword)
              (ipage.novelTitle.getD nc)
              (filterByRange a.fromEp a.toEp nc (discoveredUrls ipage nc)) p
            rw [hfe] at this
            exact this)
        · intro _
          refine ⟨⟨MainError.fetch e, rfl⟩, ?_⟩
          intro p
          have := fetchEpisodes_no_wrote w (!a.noPreface) (!a.noAfterword)
            (ipage.novelTitle.getD nc)
            (filterByRange a.fromEp a.toEp nc (discoveredUrls ipage nc)) p
          rw [hfe] at this
          exact this
      | ok eps =>
        cases eps with
        | nil =>
          have hmain : mainModel w a = (effs, Except.error MainError.emptyRange) := by
            simp [mainModel, hnc, hip, hfe]
          rw [hmain]
          constructor
          · intro p hp
            exact absurd hp (by
              have := fetchEpisodes_no_wrote w (!a.noPreface) (!a.noAfterword)
                (ipage.novelTitle.getD nc)
                (filterByRange a.fromEp a.toEp nc (discoveredUrls ipage nc)) p
              rw [hfe] at this
              exact this)
          · intro _
            refine ⟨⟨MainError.emptyRange, rfl⟩, ?_⟩
            intro p
            have := fetchEpisodes_no_wrote w (!a.noPreface) (!a.noAfterword)
              (ipage.novelTitle.getD nc)
              (filterByRange a.fromEp a.toEp nc (discoveredUrls ipage nc)) p
            rw [hfe] at this
            exact this
        | cons e0 eps' =>
          have hmain : mainModel w a =
              (effs ++ [Effect.wrote (a.out ++ "/".data ++ nc ++ ".epub".data)],
                Except.ok (a.out ++ "/".data ++ nc ++ ".epub".data,
                  build_epub ("narou:".data ++ nc) (ipage.novelTitle.getD nc)
                    (ipage.writerName.getD []) (e0 :: eps') a.vertical
                    defaultLanguage)) := by
            simp [mainModel, hnc, hip, hfe]
          rw [hmain]
          constructor
          · intro p _
            exact ⟨_, rfl⟩
          · intro hex
            have hfilt : pipelineFiltered w a =
                filterByRange a.fromEp a.toEp nc (discoveredUrls ipage nc) := by
              simp [pipelineFiltered, hnc, hip]
            rw [hfilt] at hex
            obtain ⟨e2, he2⟩ := fetchEpisodes_error_of_mem w (!a.noPreface)
              (!a.noAfterword) (ipage.novelTitle.getD nc) _ hex
            rw [hfe] at he2
            cases he2

/-- Witness for claim C3: on the abort-scenario oracle, where episode 2's
fetch exhausts its retries, the run errors out and no file write appears in
the trace. -/
theorem c3_witness :
    (∃ err, (mainModel abortWorld abortArgs).2 = Except.error err) ∧
    ∀ p, Effect.wrote p ∉ (mainModel abortWorld abortArgs).1 :=
  (c3_abort_before_write abortWorld abortArgs).2
    ⟨"https://ncode.syosetu.com/n1234ab/2/".data, by decide, 7, by decide⟩
